import Mathlib

/-!
Shallow embedding of the channel layer of the aioamqp-style AMQP client
(`src/aioamqp/channel.py`) and proofs about its behaviour.

Conventions of the embedding:
* Python exceptions become the `AmqpError` type; a raising code path returns
  `Except.error`.
* An `asyncio.Future` is represented by its completion status (`FutStatus`);
  the correlator dict `self._futures` becomes an association list from RPC-key
  strings to statuses.  Futures that have been popped from the dict and then
  completed are recorded in the ghost field `completed` so that their final
  status stays observable.
* Network and scheduler interactions (frame writes, drains, waking a waiter,
  releasing the channel id) are recorded as an ordered list of `Effect`s.
* Byte strings are `List Nat`.
-/

namespace TrioAmqp

/-- Exceptions raised by the channel layer (`aioamqp.exceptions` plus the
Python builtins that the code can raise). -/
inductive AmqpError
  | synchronizationError
  | channelClosed (code : Option Nat) (message : Option String)
  | publishFailed (deliveryTag : Nat)
  | emptyQueue
  | invalidState
  | valueError
  | typeError
  | ioError
  deriving DecidableEq, Repr

/-- Completion status of an `asyncio.Future`. -/
inductive FutStatus
  | pending
  | done
  | failed (e : AmqpError)
  | cancelled
  deriving DecidableEq, Repr

/-- Outbound AMQP frames built by the channel (only the shapes the claims
need; the rest of the pamqp method frames are irrelevant to the claims). -/
inductive Frame
  | methodPublish (exchangeName routingKey : String) (mandatory immediate : Bool)
  | contentHeader (bodySize : Nat)
  | contentBody (payload : List Nat)
  | channelCloseOk
  deriving DecidableEq, Repr

/-- Observable actions of the channel, in program order. -/
inductive Effect
  | ensureOpen
  | write (f : Frame)
  | drain
  | registerFuture (key : String)
  | resolveFuture (key : String)
  | failFuture (key : String) (e : AmqpError)
  | cancelFuture (key : String)
  | awaitFuture (key : String)
  | releaseChannelId (id : Nat)
  | setCloseEvent
  | clearCloseEvent
  deriving DecidableEq, Repr

/-- The mutable state of `Channel` (the fields the claims touch).
`deliveryTagIter` models `self.delivery_tag_iter`: `none` before
`confirm_select_ok`, `some n` when the `count(1)` iterator will next yield
`n`.  `serverFrameMax` caches `self.protocol.server_frame_max`. -/
structure ChannelState where
  channelId : Nat
  futures : List (String × FutStatus)
  completed : List (String × FutStatus)
  closeEventSet : Bool
  publisherConfirms : Bool
  deliveryTagIter : Option Nat
  ctagEvents : List (String × Bool)
  consumerCallbacks : List String
  serverFrameMax : Nat
  deriving DecidableEq, Repr

/-- A fresh channel as produced by `Channel.__init__`. -/
def initChannel (cid : Nat) (frameMax : Nat) : ChannelState :=
  { channelId := cid
    futures := []
    completed := []
    closeEventSet := false
    publisherConfirms := false
    deliveryTagIter := none
    ctagEvents := []
    consumerCallbacks := []
    serverFrameMax := frameMax }

/-- `Channel.is_open`: true while the close event is not set. -/
def is_open (st : ChannelState) : Bool := !st.closeEventSet

/-- `Channel._set_waiter`: raise `SynchronizationError` if the key is taken,
otherwise insert a fresh pending future under the key. -/
def setWaiterE (futures : List (String × FutStatus)) (rpcName : String) :
    Except AmqpError (List (String × FutStatus)) :=
  if (futures.lookup rpcName).isSome then
    .error .synchronizationError
  else
    .ok (futures ++ [(rpcName, FutStatus.pending)])

/-- Remove the (unique) binding of `k` from an association list; this is
`dict.pop(k)`'s effect on the mapping. -/
def eraseKey (m : List (String × α)) (k : String) : List (String × α) :=
  m.filter (fun kv => kv.1 != k)

/-- `Channel._get_waiter`: pop the future stored under the key, raising
`SynchronizationError` when there is none. -/
def getWaiterE (futures : List (String × FutStatus)) (rpcName : String) :
    Except AmqpError (FutStatus × List (String × FutStatus)) :=
  match futures.lookup rpcName with
  | none => .error .synchronizationError
  | some fut => .ok (fut, eraseKey futures rpcName)

/-- Pop the waiter for `key` and complete it successfully
(`_get_waiter(key)` followed by `fut.set_result(...)`; `set_result` on a
non-pending future raises `InvalidStateError`). -/
def completeOk (st : ChannelState) (key : String) :
    Except AmqpError (ChannelState × List Effect) :=
  match getWaiterE st.futures key with
  | .error e => .error e
  | .ok (fut, futures') =>
    if fut = FutStatus.pending then
      .ok ({ st with futures := futures'
                     completed := st.completed ++ [(key, FutStatus.done)] },
           [Effect.resolveFuture key])
    else .error .invalidState

/-- Pop the waiter for `key` and fail it with `e`
(`_get_waiter(key)` followed by `fut.set_exception(e)`). -/
def completeErr (st : ChannelState) (key : String) (e : AmqpError) :
    Except AmqpError (ChannelState × List Effect) :=
  match getWaiterE st.futures key with
  | .error err => .error err
  | .ok (fut, futures') =>
    if fut = FutStatus.pending then
      .ok ({ st with futures := futures'
                     completed := st.completed ++ [(key, FutStatus.failed e)] },
           [Effect.failFuture key e])
    else .error .invalidState

/-- `Channel._write_frame`: `ensure_open`, the open pre-check, the stream
write and the optional drain.  `ioError` injects a failure raised by
`ensure_open`, the stream write or the drain. -/
def writeFrame (st : ChannelState) (f : Frame) (checkOpen : Bool)
    (drainFlag : Bool) (ioErr : Option AmqpError) :
    Except AmqpError (List Effect) :=
  match ioErr with
  | some e => .error e
  | none =>
    if checkOpen && st.closeEventSet then .error (.channelClosed none none)
    else
      .ok ([Effect.ensureOpen, Effect.write f] ++
           (if drainFlag then [Effect.drain] else []))

/-- `Channel._write_frame_awaiting_response`: with `no_wait` just write;
otherwise register the waiter, write, and on a write failure pop the
registration back out, cancel the future and surface the error.  The
returned `Option String` is the key the caller suspends on. -/
def writeFrameAwaitingResponse (st : ChannelState) (waiterId : String)
    (f : Frame) (noWait : Bool) (checkOpen : Bool) (ioErr : Option AmqpError) :
    ChannelState × List Effect × Except AmqpError (Option String) :=
  if noWait then
    match writeFrame st f checkOpen true ioErr with
    | .error e => (st, [], .error e)
    | .ok effs => (st, effs, .ok none)
  else
    match setWaiterE st.futures waiterId with
    | .error e => (st, [], .error e)
    | .ok futures1 =>
      let st1 := { st with futures := futures1 }
      match writeFrame st1 f checkOpen true ioErr with
      | .error e =>
        match getWaiterE st1.futures waiterId with
        | .error e2 => (st1, [Effect.registerFuture waiterId], .error e2)
        | .ok (_fut, futures2) =>
          ({ st1 with futures := futures2
                      completed := st1.completed ++ [(waiterId, FutStatus.cancelled)] },
           [Effect.registerFuture waiterId, Effect.cancelFuture waiterId],
           .error e)
      | .ok effs =>
        (st1, Effect.registerFuture waiterId :: effs ++ [Effect.awaitFuture waiterId],
         .ok (some waiterId))

/-- `Channel.connection_closed`: fail every future in the correlator that is
not yet done with a `ChannelClosed` error built from the supplied code and
reason (or the supplied exception), then release the channel id and set the
close event.  The futures stay in the dict; only their status changes. -/
def connection_closed (st : ChannelState) (serverCode : Option Nat)
    (serverReason : Option String) (exc : Option AmqpError) :
    ChannelState × List Effect :=
  let err := match exc with
    | some e => e
    | none => AmqpError.channelClosed serverCode serverReason
  ({ st with
      futures := st.futures.map
        (fun kv => (kv.1,
          if kv.2 = FutStatus.pending then FutStatus.failed err else kv.2))
      closeEventSet := true },
   (st.futures.filter (fun kv => decide (kv.2 = FutStatus.pending))).map
      (fun kv => Effect.failFuture kv.1 err)
     ++ [Effect.releaseChannelId st.channelId, Effect.setCloseEvent])

/-- `Channel.server_channel_close`: send `Channel.CloseOk` (a checked,
drained write), decode the server's reply code and text, and run
`connection_closed` with them. -/
def server_channel_close (st : ChannelState) (replyCode : Nat)
    (replyText : String) : Except AmqpError (ChannelState × List Effect) :=
  match writeFrame st Frame.channelCloseOk true true none with
  | .error e => .error e
  | .ok effs =>
    let r := connection_closed st (some replyCode) (some replyText) none
    .ok (r.1, effs ++ r.2)

/-- `Channel.open_ok`: clear the close event, then resolve the `open`
waiter. -/
def open_ok (st : ChannelState) : Except AmqpError (ChannelState × List Effect) :=
  match completeOk { st with closeEventSet := false } "open" with
  | .error e => .error e
  | .ok (st2, effs) => .ok (st2, Effect.clearCloseEvent :: effs)

/-- `Channel.flow_ok`: decode the echoed `active` flag, clear the close
event, then resolve the `flow` waiter. -/
def flow_ok (st : ChannelState) (_active : Bool) :
    Except AmqpError (ChannelState × List Effect) :=
  match completeOk { st with closeEventSet := false } "flow" with
  | .error e => .error e
  | .ok (st2, effs) => .ok (st2, Effect.clearCloseEvent :: effs)

/-- `Channel.close_ok`: resolve the `close` waiter, then release the channel
id.  The close event is not touched here (`close` set it already). -/
def close_ok (st : ChannelState) : Except AmqpError (ChannelState × List Effect) :=
  match completeOk st "close" with
  | .error e => .error e
  | .ok (st1, effs) => .ok (st1, effs ++ [Effect.releaseChannelId st1.channelId])

/-- `Channel.exchange_declare_ok`. -/
def exchange_declare_ok (st : ChannelState) :
    Except AmqpError (ChannelState × List Effect) :=
  completeOk st "exchange_declare"

/-- `Channel.exchange_delete_ok`. -/
def exchange_delete_ok (st : ChannelState) :
    Except AmqpError (ChannelState × List Effect) :=
  completeOk st "exchange_delete"

/-- `Channel.exchange_bind_ok`. -/
def exchange_bind_ok (st : ChannelState) :
    Except AmqpError (ChannelState × List Effect) :=
  completeOk st "exchange_bind"

/-- `Channel.exchange_unbind_ok`. -/
def exchange_unbind_ok (st : ChannelState) :
    Except AmqpError (ChannelState × List Effect) :=
  completeOk st "exchange_unbind"

/-- `Channel.queue_declare_ok` (the decoded result record is carried by the
future, which the embedding does not track). -/
def queue_declare_ok (st : ChannelState) :
    Except AmqpError (ChannelState × List Effect) :=
  completeOk st "queue_declare"

/-- `Channel.queue_delete_ok`. -/
def queue_delete_ok (st : ChannelState) :
    Except AmqpError (ChannelState × List Effect) :=
  completeOk st "queue_delete"

/-- `Channel.queue_bind_ok`. -/
def queue_bind_ok (st : ChannelState) :
    Except AmqpError (ChannelState × List Effect) :=
  completeOk st "queue_bind"

/-- `Channel.queue_unbind_ok`. -/
def queue_unbind_ok (st : ChannelState) :
    Except AmqpError (ChannelState × List Effect) :=
  completeOk st "queue_unbind"

/-- `Channel.queue_purge_ok`. -/
def queue_purge_ok (st : ChannelState) :
    Except AmqpError (ChannelState × List Effect) :=
  completeOk st "queue_purge"

/-- `Channel.basic_qos_ok`. -/
def basic_qos_ok (st : ChannelState) :
    Except AmqpError (ChannelState × List Effect) :=
  completeOk st "basic_qos"

/-- Insert-or-overwrite for a Python dict represented as an association
list (`d[k] = v`). -/
def dictInsert (m : List (String × α)) (k : String) (v : α) :
    List (String × α) :=
  if (m.lookup k).isSome then
    m.map (fun kv => if kv.1 == k then (k, v) else kv)
  else m ++ [(k, v)]

/-- `Channel.basic_consume_ok`: resolve the `basic_consume` waiter with the
decoded consumer tag, then create the (initially unset) ready gate for that
tag. -/
def basic_consume_ok (st : ChannelState) (ctag : String) :
    Except AmqpError (ChannelState × List Effect) :=
  match completeOk st "basic_consume" with
  | .error e => .error e
  | .ok (st1, effs) =>
    .ok ({ st1 with ctagEvents := dictInsert st1.ctagEvents ctag false }, effs)

/-- `Channel.basic_cancel_ok`. -/
def basic_cancel_ok (st : ChannelState) :
    Except AmqpError (ChannelState × List Effect) :=
  completeOk st "basic_cancel"

/-- `Channel.basic_get_ok` (the content-frame assembly feeds the resolved
value, which the embedding does not track; the waiter handling is what
matters here). -/
def basic_get_ok (st : ChannelState) :
    Except AmqpError (ChannelState × List Effect) :=
  completeOk st "basic_get"

/-- `Channel.basic_recover_ok`. -/
def basic_recover_ok (st : ChannelState) :
    Except AmqpError (ChannelState × List Effect) :=
  completeOk st "basic_recover"

/-- `Channel.confirm_select_ok`: set `publisher_confirms`, start the
delivery-tag iterator at 1, then resolve the `confirm_select` waiter. -/
def confirm_select_ok (st : ChannelState) :
    Except AmqpError (ChannelState × List Effect) :=
  completeOk { st with publisherConfirms := true, deliveryTagIter := some 1 }
    "confirm_select"

/-- The RPC key used for the publisher confirm of a delivery tag
(`'basic_server_ack_{}'.format(delivery_tag)`). -/
def ackKey (deliveryTag : Nat) : String :=
  "basic_server_ack_" ++ toString deliveryTag

/-- `Channel.basic_server_ack`: decode only the delivery tag from the frame
(the `multiple` bit is present in a `basic.ack` payload but is never read),
pop the per-tag waiter and resolve it. -/
def basic_server_ack (st : ChannelState) (deliveryTag : Nat)
    (_multiple : Bool) : Except AmqpError (ChannelState × List Effect) :=
  completeOk st (ackKey deliveryTag)

/-- `Channel.basic_server_nack`: decode only the delivery tag (the
`multiple` and `requeue` bits are never read), pop the per-tag waiter and
fail it with `PublishFailed(delivery_tag)`. -/
def basic_server_nack (st : ChannelState) (deliveryTag : Nat)
    (_multiple : Bool) : Except AmqpError (ChannelState × List Effect) :=
  completeErr st (ackKey deliveryTag) (AmqpError.publishFailed deliveryTag)

/-- Python `range(0, n, step)` for `step ≥ 1`: the multiples of `step`
below `n`. -/
def rangeStep (n step : Nat) : List Nat :=
  (List.range ((n + step - 1) / step)).map (· * step)

/-- Python `range(0, n, step)` including the `step = 0` case, which raises
`ValueError` (`none`). -/
def pyRange (n step : Nat) : Option (List Nat) :=
  if step = 0 then none else some (rangeStep n step)

/-- The payload-splitting step shared by `basic_publish` and `publish`:
`frame_max = self.protocol.server_frame_max or len(payload)` followed by
`payload[0+i:frame_max+i] for i in range(0, len(payload), frame_max)`.
`none` models the `ValueError` from a zero range step. -/
def chunkPayload (frameMaxSetting : Nat) (payload : List Nat) :
    Option (List (List Nat)) :=
  let frameMax := if frameMaxSetting = 0 then payload.length else frameMaxSetting
  (pyRange payload.length frameMax).map
    (fun idxs => idxs.map (fun i => (payload.drop i).take frameMax))

/-- Write one checked, undrained content-body frame per chunk, in order. -/
def writeChunks (st : ChannelState) : List (List Nat) →
    Except AmqpError (List Effect)
  | [] => .ok []
  | c :: cs =>
    match writeFrame st (Frame.contentBody c) true false none with
    | .error e => .error e
    | .ok effs =>
      match writeChunks st cs with
      | .error e => .error e
      | .ok rest => .ok (effs ++ rest)

/-- `Channel.basic_publish`: write the method frame, the content header
carrying `len(payload)`, and the body chunks, all without draining, then a
single drain. -/
def basic_publish (st : ChannelState) (payload : List Nat)
    (exchangeName routingKey : String) (mandatory immediate : Bool) :
    Except AmqpError (ChannelState × List Effect) :=
  match writeFrame st (Frame.methodPublish exchangeName routingKey mandatory immediate)
      true false none with
  | .error e => .error e
  | .ok e1 =>
    match writeFrame st (Frame.contentHeader payload.length) true false none with
    | .error e => .error e
    | .ok e2 =>
      match chunkPayload st.serverFrameMax payload with
      | none => .error .valueError
      | some chunks =>
        match writeChunks st chunks with
        | .error e => .error e
        | .ok e3 => .ok (st, e1 ++ e2 ++ e3 ++ [Effect.drain])

/-- `Channel.publish`: like `basic_publish`, but when publisher confirms are
enabled it first takes the next delivery tag from the iterator and registers
the per-tag waiter, and after the final drain it suspends on that waiter. -/
def publish (st : ChannelState) (payload : List Nat)
    (exchangeName routingKey : String) (mandatory immediate : Bool) :
    Except AmqpError (ChannelState × List Effect) :=
  match (if st.publisherConfirms then
          match st.deliveryTagIter with
          | none => Except.error AmqpError.typeError
          | some tag =>
            match setWaiterE st.futures (ackKey tag) with
            | .error e => Except.error e
            | .ok futures1 =>
              Except.ok ({ st with futures := futures1, deliveryTagIter := some (tag + 1) },
                         [Effect.registerFuture (ackKey tag)], some (ackKey tag))
         else Except.ok (st, ([] : List Effect), (none : Option String))) with
  | .error e => .error e
  | .ok (st1, regEffs, suspendKey) =>
    match writeFrame st1 (Frame.methodPublish exchangeName routingKey mandatory immediate)
        true false none with
    | .error e => .error e
    | .ok e1 =>
      match writeFrame st1 (Frame.contentHeader payload.length) true false none with
      | .error e => .error e
      | .ok e2 =>
        match chunkPayload st1.serverFrameMax payload with
        | none => .error .valueError
        | some chunks =>
          match writeChunks st1 chunks with
          | .error e => .error e
          | .ok e3 =>
            .ok (st1, regEffs ++ e1 ++ e2 ++ e3 ++ [Effect.drain] ++
                 (match suspendKey with
                  | some k => [Effect.awaitFuture k]
                  | none => []))

/-- The content-body payloads among a list of effects, in emission order. -/
def bodyPayloads (effs : List Effect) : List (List Nat) :=
  effs.filterMap (fun e =>
    match e with
    | Effect.write (Frame.contentBody c) => some c
    | _ => none)

/-- Recursive reference chunker with positive chunk size `k + 1`, used as a
stepping stone for reasoning about `chunkPayload`. -/
def chunksPos (k : Nat) : List Nat → List (List Nat)
  | [] => []
  | a :: l => (a :: l).take (k + 1) :: chunksPos k ((a :: l).drop (k + 1))
termination_by p => p.length
decreasing_by
  simp only [List.drop, List.length_drop, List.length_cons]
  omega

theorem ceil_shift (k n : Nat) (hn : 1 ≤ n) :
    (n + k) / (k + 1) = ((n - (k + 1)) + k) / (k + 1) + 1 := by
  rcases le_or_lt (k + 1) n with h | h
  · have e : n + k = ((n - (k + 1)) + k) + (k + 1) := by omega
    rw [e, Nat.add_div_right _ (Nat.succ_pos k)]
  · have e1 : n + k = (n - 1) + (k + 1) := by omega
    have e2 : n - (k + 1) = 0 := by omega
    rw [e1, Nat.add_div_right _ (Nat.succ_pos k), e2,
        Nat.div_eq_of_lt (by omega), Nat.div_eq_of_lt (by omega)]

theorem rangeStep_zero (step : Nat) : rangeStep 0 step = [] := by
  unfold rangeStep
  rcases step with _ | s
  · rfl
  · rw [Nat.div_eq_of_lt (by omega)]
    rfl

theorem rangeStep_succ (k n : Nat) (hn : 1 ≤ n) :
    rangeStep n (k + 1) =
      0 :: (rangeStep (n - (k + 1)) (k + 1)).map (· + (k + 1)) := by
  unfold rangeStep
  have e : n + (k + 1) - 1 = n + k := by omega
  have e2 : n - (k + 1) + (k + 1) - 1 = n - (k + 1) + k := by omega
  rw [e, e2, ceil_shift k n hn, List.range_succ_eq_map]
  simp only [List.map_cons, Nat.zero_mul, List.map_map]
  congr 1
  apply List.map_congr_left
  intro j _
  simp only [Function.comp_apply, Nat.succ_eq_add_one]
  ring

theorem chunkList_eq_chunksPos (k : Nat) :
    ∀ fuel (p : List Nat), p.length ≤ fuel →
      (rangeStep p.length (k + 1)).map (fun i => (p.drop i).take (k + 1)) =
        chunksPos k p := by
  intro fuel
  induction fuel with
  | zero =>
    intro p hp
    have : p = [] := by
      cases p with
      | nil => rfl
      | cons a l => simp at hp
    subst this
    simp [rangeStep_zero, chunksPos]
  | succ f ih =>
    intro p hp
    cases hq : p with
    | nil => simp [rangeStep_zero, chunksPos]
    | cons a l =>
      have hlen : 1 ≤ p.length := by rw [hq]; simp
      rw [← hq]
      rw [rangeStep_succ k p.length hlen]
      have hdroplen : (p.drop (k + 1)).length = p.length - (k + 1) := by
        simp [List.length_drop]
      have ihd := ih (p.drop (k + 1)) (by
        rw [hdroplen]
        have : 1 ≤ p.length := hlen
        omega)
      simp only [List.map_cons, List.map_map, List.drop_zero]
      have hstep : ∀ i : Nat, p.drop (i + (k + 1)) = (p.drop (k + 1)).drop i := by
        intro i
        rw [List.drop_drop]
        congr 1
        omega
      have hmap :
          (rangeStep (p.length - (k + 1)) (k + 1)).map
              ((fun i => (p.drop i).take (k + 1)) ∘ (· + (k + 1))) =
            (rangeStep ((p.drop (k + 1)).length) (k + 1)).map
              (fun i => ((p.drop (k + 1)).drop i).take (k + 1)) := by
        rw [hdroplen]
        apply List.map_congr_left
        intro i _
        simp only [Function.comp_apply]
        rw [hstep i]
      rw [hmap, ihd, hq]
      conv_rhs => rw [chunksPos]

theorem join_chunksPos (k : Nat) :
    ∀ fuel (p : List Nat), p.length ≤ fuel → (chunksPos k p).flatten = p := by
  intro fuel
  induction fuel with
  | zero =>
    intro p hp
    have : p = [] := by
      cases p with
      | nil => rfl
      | cons a l => simp at hp
    subst this
    simp [chunksPos]
  | succ f ih =>
    intro p hp
    cases hq : p with
    | nil => simp [chunksPos]
    | cons a l =>
      have hdrop := ih ((a :: l).drop (k + 1)) (by
        simp only [List.length_drop, List.length_cons]
        have : p.length ≤ f + 1 := hp
        rw [hq] at this
        simp only [List.length_cons] at this
        omega)
      show (chunksPos k (a :: l)).flatten = a :: l
      rw [chunksPos]
      simp only [List.flatten_cons]
      rw [hdrop, List.take_append_drop]

theorem chunkPayload_pos (frameMax : Nat) (p : List Nat) (h : 1 ≤ frameMax) :
    ∃ chunks, chunkPayload frameMax p = some chunks ∧
      chunks.flatten = p ∧ ∀ c ∈ chunks, c.length ≤ frameMax := by
  obtain ⟨k, rfl⟩ : ∃ k, frameMax = k + 1 := ⟨frameMax - 1, by omega⟩
  refine ⟨(rangeStep p.length (k + 1)).map (fun i => (p.drop i).take (k + 1)), ?_, ?_, ?_⟩
  · unfold chunkPayload pyRange
    simp
  · rw [chunkList_eq_chunksPos k p.length p (le_refl _)]
    exact join_chunksPos k p.length p (le_refl _)
  · intro c hc
    simp only [List.mem_map] at hc
    obtain ⟨i, _, rfl⟩ := hc
    exact List.length_take_le _ _

theorem chunkPayload_zero_nonempty (p : List Nat) (h : p ≠ []) :
    chunkPayload 0 p = some [p] := by
  have hlen : 1 ≤ p.length := by
    cases p with
    | nil => exact absurd rfl h
    | cons a l => simp
  show (pyRange p.length p.length).map
      (fun idxs => idxs.map (fun i => (p.drop i).take p.length)) = some [p]
  unfold pyRange rangeStep
  rw [if_neg (by omega : ¬ p.length = 0)]
  have hdiv : (p.length + p.length - 1) / p.length = 1 := by
    have e : p.length + p.length - 1 = (p.length - 1) + p.length := by omega
    rw [e, Nat.add_div_right _ (by omega), Nat.div_eq_of_lt (by omega)]
  rw [hdiv]
  have hr1 : List.range 1 = [0] := rfl
  rw [hr1]
  simp only [Option.map_some, List.map_cons, List.map_nil, Function.comp_apply,
    Nat.zero_mul, List.drop_zero, List.take_length]
  simp [List.take_length]

theorem chunkPayload_zero_nil : chunkPayload 0 [] = none := rfl

/-! ### Association-list helper lemmas -/

theorem lookup_cons_true (k k1 : String) (v1 : α) (m : List (String × α))
    (h : (k == k1) = true) : ((k1, v1) :: m).lookup k = some v1 := by
  simp only [List.lookup, h]

theorem lookup_cons_false (k k1 : String) (v1 : α) (m : List (String × α))
    (h : (k == k1) = false) : ((k1, v1) :: m).lookup k = m.lookup k := by
  simp only [List.lookup, h]

theorem lookup_append_right (m : List (String × α)) (k : String) (v : α)
    (h : m.lookup k = none) : (m ++ [(k, v)]).lookup k = some v := by
  induction m with
  | nil => simp [List.lookup]
  | cons kv m ih =>
    obtain ⟨k1, v1⟩ := kv
    by_cases hbeq : k = k1
    · rw [lookup_cons_true k k1 v1 m (by simp [hbeq])] at h
      exact Option.noConfusion h
    · rw [lookup_cons_false k k1 v1 m (by simp [hbeq])] at h
      rw [List.cons_append, lookup_cons_false k k1 v1 _ (by simp [hbeq])]
      exact ih h

theorem eraseKey_cons (k1 : String) (v1 : α) (m : List (String × α))
    (k : String) :
    eraseKey ((k1, v1) :: m) k =
      if k1 = k then eraseKey m k else (k1, v1) :: eraseKey m k := by
  by_cases h : k1 = k
  · have hb : (k1 != k) = false := by simp [h]
    simp [eraseKey, List.filter_cons, hb, h]
  · have hb : (k1 != k) = true := by simp [h]
    simp [eraseKey, List.filter_cons, hb, h]

theorem eraseKey_append_self (m : List (String × α)) (k : String) (v : α)
    (h : m.lookup k = none) : eraseKey (m ++ [(k, v)]) k = m := by
  induction m with
  | nil => simp [eraseKey, List.filter]
  | cons kv m ih =>
    obtain ⟨k1, v1⟩ := kv
    by_cases hbeq : k = k1
    · rw [lookup_cons_true k k1 v1 m (by simp [hbeq])] at h
      exact Option.noConfusion h
    · rw [lookup_cons_false k k1 v1 m (by simp [hbeq])] at h
      rw [List.cons_append, eraseKey_cons,
          if_neg (fun hc => hbeq hc.symm), ih h]

theorem lookup_eraseKey (m : List (String × α)) (k kq : String) :
    (eraseKey m k).lookup kq = if kq = k then none else m.lookup kq := by
  induction m with
  | nil => simp [eraseKey]
  | cons kv m ih =>
    obtain ⟨k1, v1⟩ := kv
    rw [eraseKey_cons]
    by_cases h1 : k1 = k
    · rw [if_pos h1, ih]
      by_cases h2 : kq = k
      · simp [h2]
      · have hne : kq ≠ k1 := fun hc => h2 (hc.trans h1)
        rw [if_neg h2, if_neg h2, lookup_cons_false kq k1 v1 m (by simp [hne])]
    · rw [if_neg h1]
      by_cases h2 : kq = k1
      · have hb : (kq == k1) = true := by simp [h2]
        rw [lookup_cons_true kq k1 v1 _ hb,
            if_neg (fun hc => h1 (h2.symm.trans hc)),
            lookup_cons_true kq k1 v1 m hb]
      · have hb : (kq == k1) = false := by simp [h2]
        rw [lookup_cons_false kq k1 v1 _ hb]
        by_cases h3 : kq = k
        · rw [ih, if_pos h3, if_pos h3]
        · rw [ih, if_neg h3, if_neg h3, lookup_cons_false kq k1 v1 m hb]

theorem lookup_map_value (m : List (String × α)) (g : α → β) (k : String) :
    (m.map (fun kv => (kv.1, g kv.2))).lookup k = (m.lookup k).map g := by
  induction m with
  | nil => rfl
  | cons kv m ih =>
    obtain ⟨k1, v1⟩ := kv
    cases hbeq : (k == k1) with
    | true => simp [List.lookup, hbeq]
    | false => simp [List.lookup, hbeq, ih]

/-! ### Publish-path helper lemmas -/

theorem writeFrame_open (st : ChannelState) (f : Frame) (drainFlag : Bool)
    (hopen : st.closeEventSet = false) :
    writeFrame st f true drainFlag none =
      .ok ([Effect.ensureOpen, Effect.write f] ++
           (if drainFlag then [Effect.drain] else [])) := by
  unfold writeFrame
  rw [hopen]
  rfl

theorem writeChunks_open (st : ChannelState) (hopen : st.closeEventSet = false) :
    ∀ cs, writeChunks st cs =
      .ok ((cs.map (fun c => [Effect.ensureOpen, Effect.write (Frame.contentBody c)])).flatten)
  | [] => rfl
  | c :: cs => by
    rw [writeChunks, writeFrame_open st _ false hopen, writeChunks_open st hopen cs]
    rfl

theorem basic_publish_ok (st : ChannelState) (payload : List Nat)
    (ex rk : String) (m i : Bool) (chunks : List (List Nat))
    (hopen : st.closeEventSet = false)
    (hchunks : chunkPayload st.serverFrameMax payload = some chunks) :
    basic_publish st payload ex rk m i = .ok (st,
      [Effect.ensureOpen, Effect.write (Frame.methodPublish ex rk m i),
       Effect.ensureOpen, Effect.write (Frame.contentHeader payload.length)] ++
      (chunks.map (fun c => [Effect.ensureOpen, Effect.write (Frame.contentBody c)])).flatten ++
      [Effect.drain]) := by
  unfold basic_publish
  simp only [writeFrame_open st _ false hopen, hchunks,
    writeChunks_open st hopen chunks, if_false, Bool.false_eq_true,
    List.append_nil, List.append_assoc]
  rfl

theorem publish_no_confirms_ok (st : ChannelState) (payload : List Nat)
    (ex rk : String) (m i : Bool) (chunks : List (List Nat))
    (hconf : st.publisherConfirms = false)
    (hopen : st.closeEventSet = false)
    (hchunks : chunkPayload st.serverFrameMax payload = some chunks) :
    publish st payload ex rk m i = .ok (st,
      [Effect.ensureOpen, Effect.write (Frame.methodPublish ex rk m i),
       Effect.ensureOpen, Effect.write (Frame.contentHeader payload.length)] ++
      (chunks.map (fun c => [Effect.ensureOpen, Effect.write (Frame.contentBody c)])).flatten ++
      [Effect.drain]) := by
  unfold publish
  rw [hconf]
  simp only [Bool.false_eq_true, if_false, writeFrame_open st _ false hopen,
    hchunks, writeChunks_open st hopen chunks, List.append_nil,
    List.nil_append, List.append_assoc]
  rfl

theorem bodyPayloads_append (l1 l2 : List Effect) :
    bodyPayloads (l1 ++ l2) = bodyPayloads l1 ++ bodyPayloads l2 := by
  unfold bodyPayloads
  exact List.filterMap_append _ _ _

theorem bodyPayloads_chunks (cs : List (List Nat)) :
    bodyPayloads
      ((cs.map (fun c => [Effect.ensureOpen, Effect.write (Frame.contentBody c)])).flatten) = cs := by
  induction cs with
  | nil => rfl
  | cons c cs ih =>
    simp only [List.map_cons, List.flatten_cons]
    rw [bodyPayloads_append, ih]
    rfl

theorem chunkPayload_nil_pos (frameMax : Nat) (h : 1 ≤ frameMax) :
    chunkPayload frameMax [] = some [] := by
  obtain ⟨k, rfl⟩ : ∃ j, frameMax = j + 1 := ⟨frameMax - 1, by omega⟩
  show (pyRange 0 (k + 1)).map _ = some []
  unfold pyRange
  rw [if_neg (by omega : ¬ k + 1 = 0), rangeStep_zero]
  rfl

/-! ### C8 -/

/-- C8: registering a completion under a key already present in the
correlator raises a synchronization error (the map is not modified, the
error carries no new map); popping, resolving or failing a key with no
registered completion also raises a synchronization error. -/
theorem c8_correlator_sync_errors (futures : List (String × FutStatus))
    (st : ChannelState) (k : String) (e : AmqpError) :
    ((futures.lookup k).isSome →
      setWaiterE futures k = .error .synchronizationError) ∧
    (st.futures.lookup k = none →
      getWaiterE st.futures k = .error .synchronizationError ∧
      completeOk st k = .error .synchronizationError ∧
      completeErr st k e = .error .synchronizationError) := by
  constructor
  · intro h
    unfold setWaiterE
    rw [if_pos h]
  · intro h
    unfold completeOk completeErr getWaiterE
    rw [h]
    exact ⟨rfl, rfl, rfl⟩

/-- Witness for C8 at a concrete correlator. -/
theorem c8_correlator_sync_errors_witness :
    setWaiterE [("queue_declare", FutStatus.pending)] "queue_declare" =
      .error .synchronizationError ∧
    getWaiterE (initChannel 1 0).futures "queue_declare" =
      .error .synchronizationError := by
  refine ⟨(c8_correlator_sync_errors [("queue_declare", FutStatus.pending)]
            (initChannel 1 0) "queue_declare" .emptyQueue).1 (by decide),
          ((c8_correlator_sync_errors [("queue_declare", FutStatus.pending)]
            (initChannel 1 0) "queue_declare" .emptyQueue).2 (by decide)).1⟩

/-! ### C5 -/

/-- C5: for a synchronous operation (`no_wait = false`), when writing the
frame fails after the completion was registered, the registration is popped
back out of the correlator and the future is cancelled before the write
error is surfaced: the final correlator equals the original one and the
cancel effect precedes the returned error. -/
theorem c5_write_failure_rollback (st : ChannelState) (waiterId : String)
    (f : Frame) (checkOpen : Bool) (ioErr : Option AmqpError) (e : AmqpError)
    (hkey : st.futures.lookup waiterId = none)
    (hfail : writeFrame st f checkOpen true ioErr = .error e) :
    writeFrameAwaitingResponse st waiterId f false checkOpen ioErr =
      ({ st with completed := st.completed ++ [(waiterId, FutStatus.cancelled)] },
       [Effect.registerFuture waiterId, Effect.cancelFuture waiterId],
       .error e) := by
  have hset : setWaiterE st.futures waiterId =
      .ok (st.futures ++ [(waiterId, FutStatus.pending)]) := by
    unfold setWaiterE
    rw [hkey]
    rfl
  have hfail1 : writeFrame
      { st with futures := st.futures ++ [(waiterId, FutStatus.pending)] }
      f checkOpen true ioErr = .error e := hfail
  have hlook : (st.futures ++ [(waiterId, FutStatus.pending)]).lookup waiterId =
      some FutStatus.pending := lookup_append_right _ _ _ hkey
  have herase : eraseKey (st.futures ++ [(waiterId, FutStatus.pending)]) waiterId =
      st.futures := eraseKey_append_self _ _ _ hkey
  unfold writeFrameAwaitingResponse
  simp only [Bool.false_eq_true, if_false, hset, hfail1, getWaiterE, hlook,
    herase]

/-- Witness for C5: a failed stream write on an otherwise healthy channel
rolls the `queue_declare` registration back. -/
theorem c5_write_failure_rollback_witness :
    writeFrameAwaitingResponse (initChannel 1 0) "queue_declare"
        Frame.channelCloseOk false true (some AmqpError.ioError) =
      ({ initChannel 1 0 with
          completed := [("queue_declare", FutStatus.cancelled)] },
       [Effect.registerFuture "queue_declare",
        Effect.cancelFuture "queue_declare"],
       .error AmqpError.ioError) := by
  exact c5_write_failure_rollback (initChannel 1 0) "queue_declare"
    Frame.channelCloseOk true (some AmqpError.ioError) AmqpError.ioError rfl rfl

/-! ### C3 -/

/-- C3 counterexample: with `server_frame_max = 0` and an empty payload the
claim demands the entire payload in one body frame, but both `publish` and
`basic_publish` hit a zero step in the fragment range and raise instead of
emitting anything. -/
theorem c3_counterexample :
    basic_publish (initChannel 1 0) [] "ex" "rk" false false =
      .error AmqpError.valueError ∧
    publish (initChannel 1 0) [] "ex" "rk" false false =
      .error AmqpError.valueError := ⟨rfl, rfl⟩

/-- C3 (amended): for every payload, both `publish` and `basic_publish` emit
body frames whose payloads concatenate, in emission order, to the payload;
each fragment has length at most `server_frame_max` when that is at least 1,
and with `server_frame_max = 0` a *nonempty* payload goes out as exactly one
body frame (an empty payload with `server_frame_max = 0` raises instead, see
the counterexample). -/
theorem c3_fragmentation (st : ChannelState) (payload : List Nat)
    (ex rk : String) (m i : Bool)
    (hopen : st.closeEventSet = false)
    (hconf : st.publisherConfirms = false) :
    (1 ≤ st.serverFrameMax →
      ∃ outB outP,
        basic_publish st payload ex rk m i = .ok outB ∧
        publish st payload ex rk m i = .ok outP ∧
        (bodyPayloads outB.2).flatten = payload ∧
        (bodyPayloads outP.2).flatten = payload ∧
        (∀ c ∈ bodyPayloads outB.2, c.length ≤ st.serverFrameMax) ∧
        (∀ c ∈ bodyPayloads outP.2, c.length ≤ st.serverFrameMax)) ∧
    (st.serverFrameMax = 0 → payload ≠ [] →
      ∃ outB outP,
        basic_publish st payload ex rk m i = .ok outB ∧
        publish st payload ex rk m i = .ok outP ∧
        bodyPayloads outB.2 = [payload] ∧
        bodyPayloads outP.2 = [payload]) := by
  have hbody : ∀ chunks : List (List Nat),
      chunkPayload st.serverFrameMax payload = some chunks →
      ∃ outB outP,
        basic_publish st payload ex rk m i = .ok outB ∧
        publish st payload ex rk m i = .ok outP ∧
        bodyPayloads outB.2 = chunks ∧ bodyPayloads outP.2 = chunks := by
    intro chunks hchunks
    refine ⟨_, _, basic_publish_ok st payload ex rk m i chunks hopen hchunks,
            publish_no_confirms_ok st payload ex rk m i chunks hconf hopen hchunks,
            ?_, ?_⟩ <;>
    · show bodyPayloads
        ([Effect.ensureOpen, Effect.write (Frame.methodPublish ex rk m i),
          Effect.ensureOpen, Effect.write (Frame.contentHeader payload.length)] ++
         (chunks.map (fun c => [Effect.ensureOpen, Effect.write (Frame.contentBody c)])).flatten ++
         [Effect.drain]) = chunks
      rw [bodyPayloads_append, bodyPayloads_append, bodyPayloads_chunks]
      simp [bodyPayloads]
  constructor
  · intro hfm
    obtain ⟨chunks, hchunks, hflat, hlen⟩ :=
      chunkPayload_pos st.serverFrameMax payload hfm
    obtain ⟨outB, outP, hB, hP, hbB, hbP⟩ := hbody chunks hchunks
    exact ⟨outB, outP, hB, hP, by rw [hbB]; exact hflat,
           by rw [hbP]; exact hflat,
           by rw [hbB]; exact hlen, by rw [hbP]; exact hlen⟩
  · intro hfm hne
    have hchunks : chunkPayload st.serverFrameMax payload = some [payload] := by
      rw [hfm]
      exact chunkPayload_zero_nonempty payload hne
    obtain ⟨outB, outP, hB, hP, hbB, hbP⟩ := hbody [payload] hchunks
    exact ⟨outB, outP, hB, hP, hbB, hbP⟩

/-- Witness for C3 at `server_frame_max = 4` and a 10-byte payload (the
spec's fragmentation scenario). -/
theorem c3_fragmentation_witness :
    ∃ outB outP,
      basic_publish (initChannel 1 4) [0,1,2,3,4,5,6,7,8,9] "ex" "rk" false false =
        .ok outB ∧
      publish (initChannel 1 4) [0,1,2,3,4,5,6,7,8,9] "ex" "rk" false false =
        .ok outP ∧
      (bodyPayloads outB.2).flatten = [0,1,2,3,4,5,6,7,8,9] ∧
      (bodyPayloads outP.2).flatten = [0,1,2,3,4,5,6,7,8,9] ∧
      (∀ c ∈ bodyPayloads outB.2, c.length ≤ (initChannel 1 4).serverFrameMax) ∧
      (∀ c ∈ bodyPayloads outP.2, c.length ≤ (initChannel 1 4).serverFrameMax) :=
  (c3_fragmentation (initChannel 1 4) [0,1,2,3,4,5,6,7,8,9] "ex" "rk"
    false false rfl rfl).1 (by decide)

/-! ### C9 -/

/-- C9: publishing an empty payload with `server_frame_max ≥ 1` writes the
method frame and a content header announcing body size 0 but no body frame;
with `server_frame_max = 0` the chunking step's range has step 0 and
publishing raises (`ValueError`) instead of completing. -/
theorem c9_empty_payload (st : ChannelState) (ex rk : String) (m i : Bool)
    (hopen : st.closeEventSet = false)
    (hconf : st.publisherConfirms = false) :
    (1 ≤ st.serverFrameMax →
      basic_publish st [] ex rk m i = .ok (st,
        [Effect.ensureOpen, Effect.write (Frame.methodPublish ex rk m i),
         Effect.ensureOpen, Effect.write (Frame.contentHeader 0),
         Effect.drain]) ∧
      publish st [] ex rk m i = .ok (st,
        [Effect.ensureOpen, Effect.write (Frame.methodPublish ex rk m i),
         Effect.ensureOpen, Effect.write (Frame.contentHeader 0),
         Effect.drain])) ∧
    (st.serverFrameMax = 0 →
      basic_publish st [] ex rk m i = .error AmqpError.valueError ∧
      publish st [] ex rk m i = .error AmqpError.valueError) := by
  constructor
  · intro hfm
    have hchunks : chunkPayload st.serverFrameMax ([] : List Nat) = some [] :=
      chunkPayload_nil_pos st.serverFrameMax hfm
    have hB := basic_publish_ok st [] ex rk m i [] hopen hchunks
    have hP := publish_no_confirms_ok st [] ex rk m i [] hconf hopen hchunks
    simp only [List.map_nil, List.flatten_nil, List.append_nil,
      List.length_nil] at hB hP
    exact ⟨by rw [hB]; rfl, by rw [hP]; rfl⟩
  · intro hfm
    have hchunks : chunkPayload st.serverFrameMax ([] : List Nat) = none := by
      rw [hfm]
      rfl
    constructor
    · unfold basic_publish
      simp only [writeFrame_open st _ false hopen, hchunks]
    · unfold publish
      rw [hconf]
      simp only [Bool.false_eq_true, if_false,
        writeFrame_open st _ false hopen, hchunks]

/-- Witness for C9 on a fresh channel with frame max 4 and one with frame
max 0. -/
theorem c9_empty_payload_witness :
    basic_publish (initChannel 1 4) [] "ex" "rk" false false = .ok
      ((initChannel 1 4),
       [Effect.ensureOpen, Effect.write (Frame.methodPublish "ex" "rk" false false),
        Effect.ensureOpen, Effect.write (Frame.contentHeader 0),
        Effect.drain]) ∧
    basic_publish (initChannel 1 0) [] "ex" "rk" false false =
      .error AmqpError.valueError :=
  ⟨((c9_empty_payload (initChannel 1 4) "ex" "rk" false false rfl rfl).1
      (by decide)).1,
   ((c9_empty_payload (initChannel 1 0) "ex" "rk" false false rfl rfl).2
      rfl).1⟩

/-! ### C6 -/

theorem completeOk_fields (st : ChannelState) (key : String)
    (st' : ChannelState) (effs : List Effect)
    (h : completeOk st key = .ok (st', effs)) :
    st'.closeEventSet = st.closeEventSet ∧
    st'.publisherConfirms = st.publisherConfirms ∧
    st'.deliveryTagIter = st.deliveryTagIter ∧
    st'.channelId = st.channelId ∧
    st'.ctagEvents = st.ctagEvents ∧
    effs = [Effect.resolveFuture key] := by
  unfold completeOk at h
  cases hw : getWaiterE st.futures key with
  | error e => rw [hw] at h; exact Except.noConfusion h
  | ok r =>
    obtain ⟨fut, futures'⟩ := r
    rw [hw] at h
    cases fut with
    | pending =>
      have h3 := Except.ok.inj h
      have hst : st' = { st with
          futures := futures'
          completed := st.completed ++ [(key, FutStatus.done)] } :=
        (congrArg Prod.fst h3).symm
      have heff : effs = [Effect.resolveFuture key] :=
        (congrArg Prod.snd h3).symm
      subst hst
      subst heff
      exact ⟨rfl, rfl, rfl, rfl, rfl, rfl⟩
    | done => exact Except.noConfusion h
    | failed e => exact Except.noConfusion h
    | cancelled => exact Except.noConfusion h

/-- C6: with publisher confirms enabled, a successful `publish` consumes the
next client-side delivery tag (incrementing the iterator by one), registers
a fresh completion under `basic_server_ack_<tag>`, and suspends on exactly
that completion after the final drain; `confirm_select_ok` turns confirms on
and starts the tag iterator at 1, so consecutive publishes consume the
contiguous tags 1, 2, 3, …. -/
theorem c6_publish_confirms (st : ChannelState) (payload : List Nat)
    (ex rk : String) (m i : Bool) (tag : Nat) (chunks : List (List Nat))
    (hconf : st.publisherConfirms = true)
    (hiter : st.deliveryTagIter = some tag)
    (hkey : st.futures.lookup (ackKey tag) = none)
    (hopen : st.closeEventSet = false)
    (hchunks : chunkPayload st.serverFrameMax payload = some chunks) :
    publish st payload ex rk m i = .ok
      ({ st with futures := st.futures ++ [(ackKey tag, FutStatus.pending)],
                 deliveryTagIter := some (tag + 1) },
       [Effect.registerFuture (ackKey tag),
        Effect.ensureOpen, Effect.write (Frame.methodPublish ex rk m i),
        Effect.ensureOpen, Effect.write (Frame.contentHeader payload.length)] ++
       (chunks.map (fun c => [Effect.ensureOpen, Effect.write (Frame.contentBody c)])).flatten ++
       [Effect.drain, Effect.awaitFuture (ackKey tag)]) ∧
    (∀ st0 st1 effs, confirm_select_ok st0 = .ok (st1, effs) →
      st1.publisherConfirms = true ∧ st1.deliveryTagIter = some 1) := by
  constructor
  · have hset : setWaiterE st.futures (ackKey tag) =
        .ok (st.futures ++ [(ackKey tag, FutStatus.pending)]) := by
      unfold setWaiterE
      rw [hkey]
      rfl
    have hopen1 : ({ st with
        futures := st.futures ++ [(ackKey tag, FutStatus.pending)],
        publisherConfirms := true,
        deliveryTagIter := some (tag + 1) } : ChannelState).closeEventSet = false :=
      hopen
    have hw1 := writeFrame_open ({ st with
        futures := st.futures ++ [(ackKey tag, FutStatus.pending)],
        publisherConfirms := true,
        deliveryTagIter := some (tag + 1) } : ChannelState)
      (Frame.methodPublish ex rk m i) false hopen1
    have hw2 := writeFrame_open ({ st with
        futures := st.futures ++ [(ackKey tag, FutStatus.pending)],
        publisherConfirms := true,
        deliveryTagIter := some (tag + 1) } : ChannelState)
      (Frame.contentHeader payload.length) false hopen1
    have hw3 := writeChunks_open ({ st with
        futures := st.futures ++ [(ackKey tag, FutStatus.pending)],
        publisherConfirms := true,
        deliveryTagIter := some (tag + 1) } : ChannelState) hopen1 chunks
    have hchunks1 : chunkPayload ({ st with
        futures := st.futures ++ [(ackKey tag, FutStatus.pending)],
        publisherConfirms := true,
        deliveryTagIter := some (tag + 1) } : ChannelState).serverFrameMax
        payload = some chunks := hchunks
    unfold publish
    rw [hconf, hiter]
    simp only [eq_self_iff_true, if_true, hset, hw1, hw2, hchunks1, hw3,
      Bool.false_eq_true, if_false, List.append_nil, List.append_assoc]
    rfl
  · intro st0 st1 effs h
    unfold confirm_select_ok at h
    have hfields := completeOk_fields _ _ _ _ h
    exact ⟨hfields.2.1, hfields.2.2.1⟩

/-- Witness for C6: the first confirmed publish on a channel where confirms
were just enabled consumes tag 1 and suspends on `basic_server_ack_1`. -/
theorem c6_publish_confirms_witness :
    publish { initChannel 1 4 with
                publisherConfirms := true, deliveryTagIter := some 1 }
        [7, 7] "ex" "rk" false false = .ok
      ({ initChannel 1 4 with
          publisherConfirms := true, deliveryTagIter := some 2,
          futures := [(ackKey 1, FutStatus.pending)] },
       [Effect.registerFuture (ackKey 1),
        Effect.ensureOpen, Effect.write (Frame.methodPublish "ex" "rk" false false),
        Effect.ensureOpen, Effect.write (Frame.contentHeader 2)] ++
       (([[7, 7]].map (fun c => [Effect.ensureOpen, Effect.write (Frame.contentBody c)])).flatten) ++
       [Effect.drain, Effect.awaitFuture (ackKey 1)]) :=
  (c6_publish_confirms { initChannel 1 4 with
      publisherConfirms := true, deliveryTagIter := some 1 }
    [7, 7] "ex" "rk" false false 1 [[7, 7]] rfl rfl rfl rfl (by decide)).1

/-! ### C4 -/

/-- C4: on a broker-initiated `channel.close{code, text}` the channel first
writes `Channel.CloseOk` (and drains), then fails every still-pending RPC
completion with `ChannelClosed(code, text)`, then releases the channel id,
then sets the closed event — in exactly that order — and afterwards every
previously pending completion holds that error. -/
theorem c4_server_channel_close (st : ChannelState) (code : Nat)
    (text : String) (hopen : st.closeEventSet = false) :
    ∃ st', server_channel_close st code text = .ok (st',
        [Effect.ensureOpen, Effect.write Frame.channelCloseOk, Effect.drain] ++
        ((st.futures.filter (fun kv => decide (kv.2 = FutStatus.pending))).map
          (fun kv => Effect.failFuture kv.1
            (AmqpError.channelClosed (some code) (some text)))
         ++ [Effect.releaseChannelId st.channelId, Effect.setCloseEvent])) ∧
      st'.closeEventSet = true ∧
      (∀ k, st.futures.lookup k = some FutStatus.pending →
        st'.futures.lookup k =
          some (FutStatus.failed (AmqpError.channelClosed (some code) (some text)))) := by
  refine ⟨(connection_closed st (some code) (some text) none).1, ?_, rfl, ?_⟩
  · unfold server_channel_close
    rw [writeFrame_open st Frame.channelCloseOk true hopen]
    rfl
  · intro k hk
    show (st.futures.map (fun kv => (kv.1,
        if kv.2 = FutStatus.pending
        then FutStatus.failed (AmqpError.channelClosed (some code) (some text))
        else kv.2))).lookup k = _
    rw [lookup_map_value st.futures
      (fun v => if v = FutStatus.pending
        then FutStatus.failed (AmqpError.channelClosed (some code) (some text))
        else v) k, hk]
    simp

/-- Witness for C4: spec scenario 6, a pending `queue_declare` and a server
`channel.close{404, NOT_FOUND}`. -/
theorem c4_server_channel_close_witness :
    ∃ st', server_channel_close
        { initChannel 1 0 with futures := [("queue_declare", FutStatus.pending)] }
        404 "NOT_FOUND" = .ok (st',
        [Effect.ensureOpen, Effect.write Frame.channelCloseOk, Effect.drain] ++
        ([Effect.failFuture "queue_declare"
            (AmqpError.channelClosed (some 404) (some "NOT_FOUND"))]
         ++ [Effect.releaseChannelId 1, Effect.setCloseEvent])) ∧
      st'.closeEventSet = true ∧
      st'.futures.lookup "queue_declare" =
        some (FutStatus.failed (AmqpError.channelClosed (some 404) (some "NOT_FOUND"))) := by
  obtain ⟨st', h1, h2, h3⟩ := c4_server_channel_close
    { initChannel 1 0 with futures := [("queue_declare", FutStatus.pending)] }
    404 "NOT_FOUND" rfl
  exact ⟨st', h1, h2, h3 "queue_declare" rfl⟩

/-! ### C7 -/

/-- C7 counterexample: a channel with an outstanding `queue_declare` that
receives a server `channel.close` ends closed with a *nonempty* correlator
map (the failed future is left in the dict), refuting the claim that the
pending-RPC map is empty whenever the channel is closed. -/
theorem c7_counterexample :
    ∃ out, server_channel_close
        { initChannel 1 0 with futures := [("queue_declare", FutStatus.pending)] }
        404 "NOT_FOUND" = .ok out ∧
      out.1.closeEventSet = true ∧ out.1.futures ≠ [] := by
  refine ⟨_, rfl, rfl, ?_⟩
  intro h
  exact List.noConfusion h

/-- C7 (amended): immediately after `connection_closed` (and hence after a
server-initiated close) the channel is closed and every entry still in the
correlator map is non-pending — the map itself is not emptied. -/
theorem c7_closed_futures_completed (st : ChannelState) (code : Option Nat)
    (reason : Option String) (exc : Option AmqpError) :
    (connection_closed st code reason exc).1.closeEventSet = true ∧
    ∀ kv ∈ (connection_closed st code reason exc).1.futures,
      kv.2 ≠ FutStatus.pending := by
  refine ⟨rfl, ?_⟩
  intro kv hkv
  simp only [connection_closed, List.mem_map] at hkv
  obtain ⟨kv0, _, rfl⟩ := hkv
  by_cases h : kv0.2 = FutStatus.pending <;> simp [h]

/-! ### C1 -/

/-- State of a confirmed-mode channel with three in-flight publishes. -/
def c1State : ChannelState :=
  { initChannel 1 0 with
      publisherConfirms := true
      deliveryTagIter := some 4
      futures := [(ackKey 1, FutStatus.pending), (ackKey 2, FutStatus.pending),
                  (ackKey 3, FutStatus.pending)] }

/-- Run `basic.ack{tag=2, multiple=true}` then `basic.ack{tag=3}` against
`c1State` and return the final state. -/
def c1Run : Except AmqpError ChannelState :=
  match basic_server_ack c1State 2 true with
  | .error e => .error e
  | .ok (st2, _) =>
    match basic_server_ack st2 3 false with
    | .error e => .error e
    | .ok (st3, _) => .ok st3

/-- C1 counterexample: after `basic.ack{tag=2, multiple=true}` and
`basic.ack{tag=3}`, the completion for tag 1 is still pending in the
correlator and was never resolved — the first of the three publishes does
not resolve, refuting the multiple-ack claim. -/
theorem c1_counterexample :
    c1Run.map (fun st3 =>
      (st3.futures.lookup (ackKey 1), st3.completed.lookup (ackKey 1))) =
      .ok (some FutStatus.pending, none) := rfl

/-- C1 (amended): a server `basic.ack` (resp. `basic.nack`) resolves (resp.
fails, with `PublishFailed(tag)`) only the completion registered for the
exact delivery tag in the frame; the `multiple` bit is never read and has no
influence, and every other correlator entry is untouched. -/
theorem c1_ack_exact_tag_only (st : ChannelState) (tag : Nat)
    (mult mult2 : Bool)
    (h : st.futures.lookup (ackKey tag) = some FutStatus.pending) :
    basic_server_ack st tag mult = .ok
      ({ st with futures := eraseKey st.futures (ackKey tag),
                 completed := st.completed ++ [(ackKey tag, FutStatus.done)] },
       [Effect.resolveFuture (ackKey tag)]) ∧
    basic_server_ack st tag mult = basic_server_ack st tag mult2 ∧
    basic_server_nack st tag mult = .ok
      ({ st with futures := eraseKey st.futures (ackKey tag),
                 completed := st.completed ++
                   [(ackKey tag, FutStatus.failed (AmqpError.publishFailed tag))] },
       [Effect.failFuture (ackKey tag) (AmqpError.publishFailed tag)]) ∧
    (∀ kq, kq ≠ ackKey tag →
      (eraseKey st.futures (ackKey tag)).lookup kq = st.futures.lookup kq) := by
  have hget : getWaiterE st.futures (ackKey tag) =
      .ok (FutStatus.pending, eraseKey st.futures (ackKey tag)) := by
    unfold getWaiterE
    rw [h]
  refine ⟨?_, rfl, ?_, ?_⟩
  · unfold basic_server_ack completeOk
    rw [hget]
    rfl
  · unfold basic_server_nack completeErr
    rw [hget]
    rfl
  · intro kq hkq
    rw [lookup_eraseKey st.futures (ackKey tag) kq, if_neg hkq]

/-- Witness for C1's amended theorem at `c1State` and tag 2. -/
theorem c1_ack_exact_tag_only_witness :
    basic_server_ack c1State 2 true = .ok
      ({ c1State with
          futures := eraseKey c1State.futures (ackKey 2),
          completed := [(ackKey 2, FutStatus.done)] },
       [Effect.resolveFuture (ackKey 2)]) ∧
    basic_server_ack c1State 2 true = basic_server_ack c1State 2 false := by
  have h := c1_ack_exact_tag_only c1State 2 true false rfl
  exact ⟨h.1, h.2.1⟩

/-! ### C10 -/

/-- C10: a dispatched `flow-ok` clears the closed event strictly before
resolving the `flow` waiter, so after any successful `flow` RPC the channel
reports `is_open`; and among all the `*_ok` handlers only `flow_ok` and
`open_ok` touch the closed signal — every other `*_ok` handler leaves
`closeEventSet` exactly as it was. -/
theorem c10_flow_ok_close_event :
    (∀ st active out, flow_ok st active = .ok out →
      out.2 = [Effect.clearCloseEvent, Effect.resolveFuture "flow"] ∧
      out.1.closeEventSet = false ∧ is_open out.1 = true) ∧
    (∀ st out, open_ok st = .ok out → out.1.closeEventSet = false) ∧
    (∀ st out, close_ok st = .ok out →
      out.1.closeEventSet = st.closeEventSet) ∧
    (∀ st out, exchange_declare_ok st = .ok out →
      out.1.closeEventSet = st.closeEventSet) ∧
    (∀ st out, exchange_delete_ok st = .ok out →
      out.1.closeEventSet = st.closeEventSet) ∧
    (∀ st out, exchange_bind_ok st = .ok out →
      out.1.closeEventSet = st.closeEventSet) ∧
    (∀ st out, exchange_unbind_ok st = .ok out →
      out.1.closeEventSet = st.closeEventSet) ∧
    (∀ st out, queue_declare_ok st = .ok out →
      out.1.closeEventSet = st.closeEventSet) ∧
    (∀ st out, queue_delete_ok st = .ok out →
      out.1.closeEventSet = st.closeEventSet) ∧
    (∀ st out, queue_bind_ok st = .ok out →
      out.1.closeEventSet = st.closeEventSet) ∧
    (∀ st out, queue_unbind_ok st = .ok out →
      out.1.closeEventSet = st.closeEventSet) ∧
    (∀ st out, queue_purge_ok st = .ok out →
      out.1.closeEventSet = st.closeEventSet) ∧
    (∀ st out, basic_qos_ok st = .ok out →
      out.1.closeEventSet = st.closeEventSet) ∧
    (∀ st ctag out, basic_consume_ok st ctag = .ok out →
      out.1.closeEventSet = st.closeEventSet) ∧
    (∀ st out, basic_cancel_ok st = .ok out →
      out.1.closeEventSet = st.closeEventSet) ∧
    (∀ st out, basic_get_ok st = .ok out →
      out.1.closeEventSet = st.closeEventSet) ∧
    (∀ st out, basic_recover_ok st = .ok out →
      out.1.closeEventSet = st.closeEventSet) ∧
    (∀ st out, confirm_select_ok st = .ok out →
      out.1.closeEventSet = st.closeEventSet) := by
  have hflow : ∀ st active out, flow_ok st active = .ok out →
      out.2 = [Effect.clearCloseEvent, Effect.resolveFuture "flow"] ∧
      out.1.closeEventSet = false ∧ is_open out.1 = true := by
    intro st active out h
    unfold flow_ok at h
    cases hc : completeOk { st with closeEventSet := false } "flow" with
    | error e => rw [hc] at h; exact Except.noConfusion h
    | ok r =>
      rw [hc] at h
      obtain ⟨st2, effs⟩ := r
      have hf := completeOk_fields _ _ _ _ hc
      have h2 := Except.ok.inj h
      have hout1 : out.1 = st2 := by rw [← h2]
      have hout2 : out.2 = Effect.clearCloseEvent :: effs := by rw [← h2]
      refine ⟨by rw [hout2, hf.2.2.2.2.2], ?_, ?_⟩
      · rw [hout1, hf.1]
      · rw [is_open, hout1, hf.1]
        rfl
  have hopenok : ∀ st out, open_ok st = .ok out →
      out.1.closeEventSet = false := by
    intro st out h
    unfold open_ok at h
    cases hc : completeOk { st with closeEventSet := false } "open" with
    | error e => rw [hc] at h; exact Except.noConfusion h
    | ok r =>
      rw [hc] at h
      obtain ⟨st2, effs⟩ := r
      have hf := completeOk_fields _ _ _ _ hc
      have h2 := Except.ok.inj h
      have hout1 : out.1 = st2 := by rw [← h2]
      rw [hout1, hf.1]
  have hsimple : ∀ key st out, completeOk st key = .ok out →
      out.1.closeEventSet = st.closeEventSet := by
    intro key st out h
    obtain ⟨st2, effs⟩ := out
    exact (completeOk_fields _ _ _ _ h).1
  have hclose : ∀ st out, close_ok st = .ok out →
      out.1.closeEventSet = st.closeEventSet := by
    intro st out h
    unfold close_ok at h
    cases hc : completeOk st "close" with
    | error e => rw [hc] at h; exact Except.noConfusion h
    | ok r =>
      rw [hc] at h
      obtain ⟨st2, effs⟩ := r
      have h2 := Except.ok.inj h
      have hout1 : out.1 = st2 := by rw [← h2]
      rw [hout1]
      exact (completeOk_fields _ _ _ _ hc).1
  have hconsume : ∀ st ctag out, basic_consume_ok st ctag = .ok out →
      out.1.closeEventSet = st.closeEventSet := by
    intro st ctag out h
    unfold basic_consume_ok at h
    cases hc : completeOk st "basic_consume" with
    | error e => rw [hc] at h; exact Except.noConfusion h
    | ok r =>
      rw [hc] at h
      obtain ⟨st2, effs⟩ := r
      have h2 := Except.ok.inj h
      have hout1 : out.1 = { st2 with ctagEvents := dictInsert st2.ctagEvents ctag false } := by
        rw [← h2]
      rw [hout1]
      exact (completeOk_fields _ _ _ _ hc).1
  have hconfirm : ∀ st out, confirm_select_ok st = .ok out →
      out.1.closeEventSet = st.closeEventSet := by
    intro st out h
    unfold confirm_select_ok at h
    exact hsimple "confirm_select"
      { st with publisherConfirms := true, deliveryTagIter := some 1 } out h
  exact ⟨hflow, hopenok, hclose, fun st out h => hsimple _ _ _ h,
    fun st out h => hsimple _ _ _ h, fun st out h => hsimple _ _ _ h,
    fun st out h => hsimple _ _ _ h, fun st out h => hsimple _ _ _ h,
    fun st out h => hsimple _ _ _ h, fun st out h => hsimple _ _ _ h,
    fun st out h => hsimple _ _ _ h, fun st out h => hsimple _ _ _ h,
    fun st out h => hsimple _ _ _ h, hconsume,
    fun st out h => hsimple _ _ _ h, fun st out h => hsimple _ _ _ h,
    fun st out h => hsimple _ _ _ h, hconfirm⟩

/-- Witness for C10: `flow_ok` on a channel whose closed event was set makes
it open again and clears before resolving. -/
theorem c10_flow_ok_close_event_witness :
    ∃ out, flow_ok { initChannel 1 0 with
        closeEventSet := true, futures := [("flow", FutStatus.pending)] }
        true = .ok out ∧
      out.2 = [Effect.clearCloseEvent, Effect.resolveFuture "flow"] ∧
      is_open out.1 = true := by
  have h : flow_ok { initChannel 1 0 with
      closeEventSet := true, futures := [("flow", FutStatus.pending)] }
      true = .ok
        ({ initChannel 1 0 with
            closeEventSet := false, futures := eraseKey [("flow", FutStatus.pending)] "flow",
            completed := [("flow", FutStatus.done)] },
         [Effect.clearCloseEvent, Effect.resolveFuture "flow"]) := rfl
  obtain ⟨h1, h2, h3⟩ := c10_flow_ok_close_event.1 _ true _ h
  exact ⟨_, h, h1, h3⟩

/-! ### C2: the consume-ok / delivery gate

A small labelled transition system over the consume-related state of the
channel, faithful to the cooperative (asyncio) scheduling of the code:

* `consume t` — `basic_consume` stores the callback under `t` and writes the
  frame (the caller then suspends on the `basic_consume` waiter; at most one
  such waiter exists, per `_set_waiter`).
* `consumeOk t` — the dispatcher runs `basic_consume_ok`: it resolves the
  waiter and creates the (unset) ready gate `self._ctag_events[t]`.
* `consumeResume t` — the `basic_consume` caller, woken by the resolved
  waiter, resumes and runs `self._ctag_events[t].set()`.
* `deliver t` — the dispatcher runs `basic_deliver` (content assembly
  elided): it looks up the callback, then the gate; no gate means the
  callback runs at once, a set gate means remove-the-gate-then-run, an unset
  gate suspends the dispatcher on `event.wait()` (blocking further
  dispatch).
* `deliverRun t` — the blocked `basic_deliver` resumes after the gate was
  set: it removes the gate and runs the callback. -/
structure CState where
  callbacks : List String
  gates : List (String × Bool)
  consumeInFlight : Option String
  consumeOkSeen : List String
  resumed : List String
  blockedDeliver : Option String
  callbackRuns : List String
  deriving DecidableEq, Repr

/-- Scheduler events for the consume/deliver interaction. -/
inductive CLabel
  | consume (tag : String)
  | consumeOk (tag : String)
  | consumeResume (tag : String)
  | deliver (tag : String)
  | deliverRun (tag : String)
  deriving DecidableEq, Repr

/-- `self._ctag_events[k].set()`: the event object under `k` becomes set;
the dict itself keeps the key. -/
def setGate (m : List (String × Bool)) (k : String) : List (String × Bool) :=
  m.map (fun kv => if kv.1 == k then (kv.1, true) else kv)

/-- One scheduler step; `none` means the event is not enabled in this state
(or the code would raise). -/
def cstep (st : CState) (l : CLabel) : Option CState :=
  match l with
  | .consume t =>
    if st.consumeInFlight.isSome then none
    else some { st with callbacks := st.callbacks ++ [t],
                        consumeInFlight := some t }
  | .consumeOk t =>
    if st.blockedDeliver.isSome then none
    else if st.consumeInFlight = some t then
      some { st with consumeInFlight := none,
                     consumeOkSeen := st.consumeOkSeen ++ [t],
                     gates := dictInsert st.gates t false }
    else none
  | .consumeResume t =>
    if t ∈ st.consumeOkSeen ∧ t ∉ st.resumed then
      if (st.gates.lookup t).isSome then
        some { st with gates := setGate st.gates t,
                       resumed := st.resumed ++ [t] }
      else none
    else none
  | .deliver t =>
    if st.blockedDeliver.isSome then none
    else if t ∈ st.callbacks then
      match st.gates.lookup t with
      | none => some { st with callbackRuns := st.callbackRuns ++ [t] }
      | some true => some { st with gates := eraseKey st.gates t,
                                    callbackRuns := st.callbackRuns ++ [t] }
      | some false => some { st with blockedDeliver := some t }
    else none
  | .deliverRun t =>
    if st.blockedDeliver = some t then
      match st.gates.lookup t with
      | some true => some { st with gates := eraseKey st.gates t,
                                    blockedDeliver := none,
                                    callbackRuns := st.callbackRuns ++ [t] }
      | _ => none
    else none

/-- Run a sequence of scheduler events. -/
def crun (st : CState) : List CLabel → Option CState
  | [] => some st
  | l :: ls =>
    match cstep st l with
    | none => none
    | some st1 => crun st1 ls

/-- The initial consume state of a fresh channel. -/
def cinit : CState :=
  { callbacks := [], gates := [], consumeInFlight := none,
    consumeOkSeen := [], resumed := [], blockedDeliver := none,
    callbackRuns := [] }

/-- Wire-order discipline of a conforming broker: a `basic.deliver` for a
consumer tag is only dispatched after the `consume-ok` for that tag. -/
def deliversAfterOkB : CState → List CLabel → Bool
  | _, [] => true
  | st, l :: ls =>
    (match l with
     | CLabel.deliver t => st.consumeOkSeen.contains t
     | _ => true) &&
    (match cstep st l with
     | none => true
     | some st1 => deliversAfterOkB st1 ls)

theorem lookup_append_single_ne (m : List (String × α)) (k kq : String)
    (v : α) (h : kq ≠ k) : (m ++ [(k, v)]).lookup kq = m.lookup kq := by
  induction m with
  | nil =>
    rw [List.nil_append, lookup_cons_false kq k v [] (by simp [h])]
  | cons kv m ih =>
    obtain ⟨k1, v1⟩ := kv
    by_cases h1 : kq = k1
    · rw [List.cons_append, lookup_cons_true kq k1 v1 _ (by simp [h1]),
          lookup_cons_true kq k1 v1 m (by simp [h1])]
    · rw [List.cons_append, lookup_cons_false kq k1 v1 _ (by simp [h1]),
          lookup_cons_false kq k1 v1 m (by simp [h1]), ih]

theorem lookup_overwrite (m : List (String × α)) (k kq : String) (v : α) :
    (m.map (fun kv => if kv.1 == k then (k, v) else kv)).lookup kq =
      if kq = k then (m.lookup k).map (fun _ => v) else m.lookup kq := by
  induction m with
  | nil => by_cases h : kq = k <;> simp [h, List.lookup]
  | cons kv m ih =>
    obtain ⟨k1, v1⟩ := kv
    rw [List.map_cons]
    by_cases h1 : k1 = k
    · have hb : ((k1, v1).1 == k) = true := by simp [h1]
      rw [if_pos hb]
      by_cases h2 : kq = k
      · rw [lookup_cons_true kq k v _ (by simp [h2]), if_pos h2,
            lookup_cons_true k k1 v1 m (by simp [h1])]
        rfl
      · rw [lookup_cons_false kq k v _ (by simp [h2]), ih, if_neg h2, if_neg h2,
            lookup_cons_false kq k1 v1 m
              (by simp [show kq ≠ k1 from fun hc => h2 (hc.trans h1)])]
    · have hb : ((k1, v1).1 == k) = false := by simp [h1]
      rw [if_neg (by simp [h1] : ¬ ((k1, v1).1 == k) = true)]
      by_cases h2 : kq = k1
      · rw [lookup_cons_true kq k1 v1 _ (by simp [h2]),
            if_neg (fun hc => h1 ((h2.symm.trans hc).symm ▸ rfl)),
            lookup_cons_true kq k1 v1 m (by simp [h2])]
      · rw [lookup_cons_false kq k1 v1 _ (by simp [h2]), ih,
            lookup_cons_false kq k1 v1 m (by simp [h2])]
        by_cases h3 : kq = k
        · rw [if_pos h3, if_pos h3,
              lookup_cons_false k k1 v1 m
                (by simp [show k ≠ k1 from fun hc => h1 hc.symm])]
        · rw [if_neg h3, if_neg h3]

theorem lookup_dictInsert (m : List (String × α)) (k kq : String) (v : α) :
    (dictInsert m k v).lookup kq = if kq = k then some v else m.lookup kq := by
  unfold dictInsert
  by_cases h : (m.lookup k).isSome
  · rw [if_pos h, lookup_overwrite]
    by_cases h2 : kq = k
    · rw [if_pos h2, if_pos h2]
      obtain ⟨w, hw⟩ := Option.isSome_iff_exists.mp h
      rw [hw]
      rfl
    · rw [if_neg h2, if_neg h2]
  · rw [if_neg h]
    by_cases h2 : kq = k
    · subst h2
      rw [if_pos rfl,
          lookup_append_right m kq v (Option.not_isSome_iff_eq_none.mp h)]
    · rw [if_neg h2, lookup_append_single_ne m k kq v h2]

theorem lookup_setGate (m : List (String × Bool)) (k kq : String) :
    (setGate m k).lookup kq =
      if kq = k then (m.lookup k).map (fun _ => true) else m.lookup kq := by
  unfold setGate
  induction m with
  | nil => by_cases h : kq = k <;> simp [h, List.lookup]
  | cons kv m ih =>
    obtain ⟨k1, v1⟩ := kv
    rw [List.map_cons]
    by_cases h1 : k1 = k
    · have hb : ((k1, v1).1 == k) = true := by simp [h1]
      rw [if_pos hb]
      by_cases h2 : kq = k
      · rw [lookup_cons_true kq k1 true _ (by simp [h1, h2]), if_pos h2,
            lookup_cons_true k k1 v1 m (by simp [h1])]
        rfl
      · rw [lookup_cons_false kq k1 true _
              (by simp [show kq ≠ k1 from fun hc => h2 (hc.trans h1)]),
            ih, if_neg h2, if_neg h2,
            lookup_cons_false kq k1 v1 m
              (by simp [show kq ≠ k1 from fun hc => h2 (hc.trans h1)])]
    · rw [if_neg (by simp [h1] : ¬ ((k1, v1).1 == k) = true)]
      by_cases h2 : kq = k1
      · rw [lookup_cons_true kq k1 v1 _ (by simp [h2]),
            if_neg (fun hc => h1 ((h2.symm.trans hc).symm ▸ rfl)),
            lookup_cons_true kq k1 v1 m (by simp [h2])]
      · rw [lookup_cons_false kq k1 v1 _ (by simp [h2]), ih,
            lookup_cons_false kq k1 v1 m (by simp [h2])]
        by_cases h3 : kq = k
        · rw [if_pos h3, if_pos h3,
              lookup_cons_false k k1 v1 m
                (by simp [show k ≠ k1 from fun hc => h1 hc.symm])]
        · rw [if_neg h3, if_neg h3]

/-- The inductive invariant tying gates, resumption and callback runs
together: a callback only ever ran for a resumed consumer; a set gate means
its consumer resumed; a consumer whose consume-ok was seen either still has
its gate or has resumed; resumption implies consume-ok was seen. -/
structure CInv (st : CState) : Prop where
  runsResumed : ∀ t ∈ st.callbackRuns, t ∈ st.resumed
  gateSetResumed : ∀ t, st.gates.lookup t = some true → t ∈ st.resumed
  okGateOrResumed : ∀ t ∈ st.consumeOkSeen,
    (st.gates.lookup t).isSome = true ∨ t ∈ st.resumed
  resumedOk : ∀ t ∈ st.resumed, t ∈ st.consumeOkSeen

theorem cinv_init : CInv cinit :=
  ⟨fun t h => absurd h (by simp [cinit]),
   fun t h => by simp [cinit, List.lookup] at h,
   fun t h => absurd h (by simp [cinit]),
   fun t h => absurd h (by simp [cinit])⟩

theorem cinv_step (st st' : CState) (l : CLabel) (hinv : CInv st)
    (hgood : ∀ t, l = CLabel.deliver t → t ∈ st.consumeOkSeen)
    (hstep : cstep st l = some st') : CInv st' := by
  cases l with
  | consume t =>
    simp only [cstep] at hstep
    by_cases hc : st.consumeInFlight.isSome
    · rw [if_pos hc] at hstep
      exact Option.noConfusion hstep
    · rw [if_neg hc] at hstep
      have h2 := Option.some.inj hstep
      subst h2
      exact ⟨hinv.runsResumed, hinv.gateSetResumed, hinv.okGateOrResumed,
             hinv.resumedOk⟩
  | consumeOk t =>
    simp only [cstep] at hstep
    by_cases hb : st.blockedDeliver.isSome
    · rw [if_pos hb] at hstep
      exact Option.noConfusion hstep
    · rw [if_neg hb] at hstep
      by_cases hc : st.consumeInFlight = some t
      · rw [if_pos hc] at hstep
        have h2 := Option.some.inj hstep
        subst h2
        refine ⟨hinv.runsResumed, ?_, ?_, ?_⟩
        · intro tq hq
          rw [lookup_dictInsert] at hq
          by_cases he : tq = t
          · rw [if_pos he] at hq
            exact absurd hq (by simp)
          · rw [if_neg he] at hq
            exact hinv.gateSetResumed tq hq
        · intro tq hq
          rw [List.mem_append] at hq
          rcases hq with hq | hq
          · rcases hinv.okGateOrResumed tq hq with hg | hr
            · left
              rw [lookup_dictInsert]
              by_cases he : tq = t
              · rw [if_pos he]
                rfl
              · rw [if_neg he]
                exact hg
            · right
              exact hr
          · left
            have he : tq = t := by simpa using hq
            rw [lookup_dictInsert, if_pos he]
            rfl
        · intro tq hq
          exact List.mem_append_left _ (hinv.resumedOk tq hq)
      · rw [if_neg hc] at hstep
        exact Option.noConfusion hstep
  | consumeResume t =>
    simp only [cstep] at hstep
    by_cases hc : t ∈ st.consumeOkSeen ∧ t ∉ st.resumed
    · rw [if_pos hc] at hstep
      by_cases hg : (st.gates.lookup t).isSome
      · rw [if_pos hg] at hstep
        have h2 := Option.some.inj hstep
        subst h2
        refine ⟨?_, ?_, ?_, ?_⟩
        · intro tq hq
          exact List.mem_append_left _ (hinv.runsResumed tq hq)
        · intro tq hq
          rw [lookup_setGate] at hq
          by_cases he : tq = t
          · subst he
            exact List.mem_append_right _ (by simp)
          · rw [if_neg he] at hq
            exact List.mem_append_left _ (hinv.gateSetResumed tq hq)
        · intro tq hq
          rcases hinv.okGateOrResumed tq hq with hgg | hr
          · left
            rw [lookup_setGate]
            by_cases he : tq = t
            · rw [if_pos he]
              obtain ⟨w, hw⟩ := Option.isSome_iff_exists.mp hg
              rw [hw]
              rfl
            · rw [if_neg he]
              exact hgg
          · right
            exact List.mem_append_left _ hr
        · intro tq hq
          rw [List.mem_append] at hq
          rcases hq with hq | hq
          · exact hinv.resumedOk tq hq
          · have he : tq = t := by simpa using hq
            subst he
            exact hc.1
      · rw [if_neg hg] at hstep
        exact Option.noConfusion hstep
    · rw [if_neg hc] at hstep
      exact Option.noConfusion hstep
  | deliver t =>
    have hseen := hgood t rfl
    simp only [cstep] at hstep
    by_cases hb : st.blockedDeliver.isSome
    · rw [if_pos hb] at hstep
      exact Option.noConfusion hstep
    · rw [if_neg hb] at hstep
      by_cases hcb : t ∈ st.callbacks
      · rw [if_pos hcb] at hstep
        cases hg : st.gates.lookup t with
        | none =>
          rw [hg] at hstep
          have h2 := Option.some.inj hstep
          subst h2
          have hres : t ∈ st.resumed := by
            rcases hinv.okGateOrResumed t hseen with hx | hx
            · rw [hg] at hx
              exact absurd hx (by simp)
            · exact hx
          refine ⟨?_, hinv.gateSetResumed, hinv.okGateOrResumed,
                  hinv.resumedOk⟩
          intro tq hq
          rw [List.mem_append] at hq
          rcases hq with hq | hq
          · exact hinv.runsResumed tq hq
          · have he : tq = t := by simpa using hq
            subst he
            exact hres
        | some b =>
          cases b with
          | true =>
            rw [hg] at hstep
            have h2 := Option.some.inj hstep
            subst h2
            have hres : t ∈ st.resumed := hinv.gateSetResumed t hg
            refine ⟨?_, ?_, ?_, hinv.resumedOk⟩
            · intro tq hq
              rw [List.mem_append] at hq
              rcases hq with hq | hq
              · exact hinv.runsResumed tq hq
              · have he : tq = t := by simpa using hq
                subst he
                exact hres
            · intro tq hq
              rw [lookup_eraseKey] at hq
              by_cases he : tq = t
              · rw [if_pos he] at hq
                exact Option.noConfusion hq
              · rw [if_neg he] at hq
                exact hinv.gateSetResumed tq hq
            · intro tq hq
              rcases hinv.okGateOrResumed tq hq with hx | hx
              · by_cases he : tq = t
                · subst he
                  right
                  exact hres
                · left
                  rw [lookup_eraseKey, if_neg he]
                  exact hx
              · right
                exact hx
          | false =>
            rw [hg] at hstep
            have h2 := Option.some.inj hstep
            subst h2
            exact ⟨hinv.runsResumed, hinv.gateSetResumed,
                   hinv.okGateOrResumed, hinv.resumedOk⟩
      · rw [if_neg hcb] at hstep
        exact Option.noConfusion hstep
  | deliverRun t =>
    simp only [cstep] at hstep
    by_cases hb : st.blockedDeliver = some t
    · rw [if_pos hb] at hstep
      cases hg : st.gates.lookup t with
      | none =>
        rw [hg] at hstep
        exact Option.noConfusion hstep
      | some b =>
        cases b with
        | false =>
          rw [hg] at hstep
          exact Option.noConfusion hstep
        | true =>
          rw [hg] at hstep
          have h2 := Option.some.inj hstep
          subst h2
          have hres : t ∈ st.resumed := hinv.gateSetResumed t hg
          refine ⟨?_, ?_, ?_, hinv.resumedOk⟩
          · intro tq hq
            rw [List.mem_append] at hq
            rcases hq with hq | hq
            · exact hinv.runsResumed tq hq
            · have he : tq = t := by simpa using hq
              subst he
              exact hres
          · intro tq hq
            rw [lookup_eraseKey] at hq
            by_cases he : tq = t
            · rw [if_pos he] at hq
              exact Option.noConfusion hq
            · rw [if_neg he] at hq
              exact hinv.gateSetResumed tq hq
          · intro tq hq
            rcases hinv.okGateOrResumed tq hq with hx | hx
            · by_cases he : tq = t
              · subst he
                right
                exact hres
              · left
                rw [lookup_eraseKey, if_neg he]
                exact hx
            · right
              exact hx
    · rw [if_neg hb] at hstep
      exact Option.noConfusion hstep

theorem crun_inv : ∀ (ls : List CLabel) (st stq : CState), CInv st →
    deliversAfterOkB st ls = true → crun st ls = some stq → CInv stq := by
  intro ls
  induction ls with
  | nil =>
    intro st stq hinv _ hrun
    have h2 := Option.some.inj hrun
    subst h2
    exact hinv
  | cons l ls ih =>
    intro st stq hinv hgood hrun
    simp only [crun] at hrun
    cases hs : cstep st l with
    | none =>
      rw [hs] at hrun
      exact Option.noConfusion hrun
    | some st1 =>
      rw [hs] at hrun
      simp only [deliversAfterOkB, hs, Bool.and_eq_true] at hgood
      obtain ⟨hhead, htail⟩ := hgood
      refine ih st1 stq (cinv_step st st1 l hinv ?_ hs) htail hrun
      intro t hl
      subst hl
      simpa using hhead

/-- C2 counterexample: dispatch `basic_consume "t"` and then a
`basic.deliver "t"` *before* any `consume-ok` is dispatched.  The gate does
not exist yet, so `basic_deliver` invokes the callback at once: the run log
shows the callback ran although no consume-ok was ever observed, refuting
the claim that the callback never executes before the consume-ok. -/
theorem c2_counterexample :
    (crun cinit [CLabel.consume "t", CLabel.deliver "t"]).map
      (fun st => (st.callbackRuns, st.consumeOkSeen, st.resumed)) =
      some (["t"], [], []) := rfl

/-- C2 (amended): *provided every `basic.deliver` for a tag is dispatched
after that tag's `consume-ok`* (the wire order a conforming broker
guarantees), every callback run is for a consumer whose `basic_consume`
caller has already resumed (and whose consume-ok was observed); moreover a
deliver that finds a set gate removes it and runs the callback, and one that
finds an unset gate blocks without running the callback — so the first
deliver consumes the gate and subsequent delivers skip it. -/
theorem c2_consume_ok_before_callback (ls : List CLabel) (stq : CState)
    (hrun : crun cinit ls = some stq)
    (hgood : deliversAfterOkB cinit ls = true) :
    (∀ t ∈ stq.callbackRuns, t ∈ stq.resumed ∧ t ∈ stq.consumeOkSeen) ∧
    (∀ (st1 : CState) (t : String) (st2 : CState),
      st1.gates.lookup t = some true →
      cstep st1 (CLabel.deliver t) = some st2 →
      st2.gates = eraseKey st1.gates t ∧
      st2.callbackRuns = st1.callbackRuns ++ [t]) ∧
    (∀ (st1 : CState) (t : String) (st2 : CState),
      st1.gates.lookup t = some false →
      cstep st1 (CLabel.deliver t) = some st2 →
      st2.blockedDeliver = some t ∧
      st2.callbackRuns = st1.callbackRuns) := by
  have hinv : CInv stq := crun_inv ls cinit stq cinv_init hgood hrun
  refine ⟨?_, ?_, ?_⟩
  · intro t ht
    have hres := hinv.runsResumed t ht
    exact ⟨hres, hinv.resumedOk t hres⟩
  · intro st1 t st2 hg hstep
    simp only [cstep] at hstep
    by_cases hb : st1.blockedDeliver.isSome
    · rw [if_pos hb] at hstep
      exact Option.noConfusion hstep
    · rw [if_neg hb] at hstep
      by_cases hcb : t ∈ st1.callbacks
      · rw [if_pos hcb, hg] at hstep
        have h2 := Option.some.inj hstep
        subst h2
        exact ⟨rfl, rfl⟩
      · rw [if_neg hcb] at hstep
        exact Option.noConfusion hstep
  · intro st1 t st2 hg hstep
    simp only [cstep] at hstep
    by_cases hb : st1.blockedDeliver.isSome
    · rw [if_pos hb] at hstep
      exact Option.noConfusion hstep
    · rw [if_neg hb] at hstep
      by_cases hcb : t ∈ st1.callbacks
      · rw [if_pos hcb, hg] at hstep
        have h2 := Option.some.inj hstep
        subst h2
        exact ⟨rfl, rfl⟩
      · rw [if_neg hcb] at hstep
        exact Option.noConfusion hstep

/-- Witness for C2's amended theorem on the well-ordered trace
consume, consume-ok, caller-resume, deliver: the callback runs and the
ordering facts hold. -/
theorem c2_consume_ok_before_callback_witness :
    ∃ stq, crun cinit [CLabel.consume "t", CLabel.consumeOk "t",
        CLabel.consumeResume "t", CLabel.deliver "t"] = some stq ∧
      "t" ∈ stq.callbackRuns ∧ "t" ∈ stq.resumed ∧ "t" ∈ stq.consumeOkSeen := by
  have hrun : crun cinit [CLabel.consume "t", CLabel.consumeOk "t",
      CLabel.consumeResume "t", CLabel.deliver "t"] = some
      { callbacks := ["t"], gates := [], consumeInFlight := none,
        consumeOkSeen := ["t"], resumed := ["t"], blockedDeliver := none,
        callbackRuns := ["t"] } := by decide
  have h := (c2_consume_ok_before_callback _ _ hrun (by decide)).1 "t"
    (by decide)
  exact ⟨_, hrun, by decide, h.1, h.2⟩

end TrioAmqp
